import Mathlib

/-!
Verification of the tig-circuit-gen repository (src/lib.rs, src/main.rs).

The Rust source is shallowly embedded as follows.

* `CircuitConfig`, `difficulty_to_config`, `calculate_reducibility` mirror
  src/lib.rs lines 8-46.  The `f64` arithmetic of the scaler's ratios and the
  generator's branch probabilities is modelled over exact `ℚ` (every literal
  an exact rational, the formulas those of the source); the properties proved
  about them (formula shape, monotonicity, floors and caps, comparisons with
  drawn values) are invariant under correct rounding.  Where the rounding is
  itself the question — the reducibility sample values — the IEEE binary64
  model `floatRound` / `f64_div` / `f64_sub` / `calculate_reducibility_f64`
  computes the exact rational value of every double: round to nearest, ties
  to even, at 53 significant bits.
* `generate_circom_code` (src/lib.rs lines 49-166) is embedded as a fold of
  `genStep` over the step indices.  The ChaCha20 stream seeded from
  SHA-256(seed) is abstracted as an `Oracle`: a deterministic table of draw
  values indexed by a running draw counter, one entry consumed per RNG call,
  in the source's call order.  `gen_range(0..n)` is modelled as the oracle
  value reduced mod `n` (every value below `n` is realised by some oracle,
  exactly as every value is realised by some seed).
* The `HashMap` expression cache is modelled as an association list with
  last-writer-wins insertion (`cacheInsert`), which preserves exactly the
  key set and values of the Rust map.  `expr_cache.keys().collect()` has an
  unspecified iteration order in Rust (per-map randomised `RandomState`);
  the embedding therefore takes the enumeration function `enum` as an
  explicit parameter, so that dependence of the output on the map's
  iteration order is expressible.
* Rust `expr_cache.keys()` indexing `parts[0]`, `parts[1]`, `parts[2]` and
  `signals[idx]` panic when out of bounds; the embedding uses `getD` with a
  default and the in-bounds facts are proved separately.
* The footer `format!("out <== s_{}", config.num_constraints - 1)` performs
  a `usize` subtraction that overflows (panics in a debug build) when
  `num_constraints = 0`; the embedding returns `none` in exactly that case
  and `some` of the generated text otherwise.
* `scanForCount` / `optimized_size` embed the calibration loop's parse of
  the external compiler report (src/main.rs lines 110-115): the regex
  `non-linear constraints:\s*(\d+)` is modelled as a scan for the literal,
  then ASCII whitespace, then a non-empty digit run, with backtracking to
  later occurrences when no digit follows, which is the regex's behaviour.
-/

/-- The configuration vector Theta, src/lib.rs lines 8-14. -/
structure CircuitConfig where
  num_constraints : Nat
  redundancy_ratio : ℚ
  max_depth : Nat
  power_map_ratio : ℚ
deriving Repr, DecidableEq

/-- The difficulty scaling function, src/lib.rs lines 17-39. -/
def difficulty_to_config (delta : Nat) : CircuitConfig :=
  let num_constraints := delta * 1000
  let redundancy_ratio := max ((0.5 : ℚ) - (delta : ℚ) * 0.05) 0.05
  let power_map_ratio := min ((0.05 : ℚ) + (delta : ℚ) * 0.05) 0.30
  let max_depth := 10 + delta * 10
  { num_constraints := num_constraints
    redundancy_ratio := redundancy_ratio
    max_depth := max_depth
    power_map_ratio := power_map_ratio }

/-- Reducibility helper, src/lib.rs lines 44-46, in the exact-rational
idealisation of the f64 arithmetic (no rounding): used by the
calibration-loop claims, whose content is control flow, not rounding.
The IEEE-faithful model of the same source lines is
calculate_reducibility_f64 below. -/
def calculate_reducibility (baseline optimized : ℚ) : ℚ :=
  1 - optimized / baseline

/-- Round num / den to the nearest natural number, ties to even. -/
def rneDiv (num den : Nat) : Nat :=
  let qd := num / den
  let r2 := 2 * (num % den)
  if r2 < den then qd
  else if den < r2 then qd + 1
  else if qd % 2 = 0 then qd else qd + 1

/-- Number of binary digits of n, by fuel-driven structural recursion. -/
def blen : Nat → Nat → Nat
  | 0, _ => 0
  | fuel + 1, n => if n = 0 then 0 else blen fuel (n / 2) + 1

/-- The floor of the base-two logarithm of a positive rational greater
than 2 ^ -75: the bit length of the integer part of q * 2 ^ 75, shifted
back. -/
def qLog2 (q : ℚ) : Int :=
  (blen 400 (q.num.toNat * 2 ^ 75 / q.den) : Int) - 76

/-- Round a positive rational to 53 significant bits, nearest-even: the
value of the IEEE binary64 closest to q, for q in the normal range.
With s = 52 - floor(log2 q), the mantissa q * 2 ^ s lies in
2 ^ 52 .. 2 ^ 53; it is rounded to an integer by one integer division
with ties to even, and scaled back by 2 ^ s. -/
def floatRoundPos (q : ℚ) : ℚ :=
  let s : Int := 52 - qLog2 q
  if 0 ≤ s then
    mkRat (rneDiv (q.num.toNat * 2 ^ s.toNat) q.den) (2 ^ s.toNat)
  else
    mkRat (rneDiv q.num.toNat (q.den * 2 ^ (-s).toNat) * 2 ^ (-s).toNat) 1

/-- The binary64 value nearest a rational (round to nearest, ties to
even), exact for magnitudes between 2 ^ -75 and 2 ^ 116; subnormals and
overflow do not arise for the values this development evaluates. -/
def floatRound (q : ℚ) : ℚ :=
  if q = 0 then 0
  else if 0 < q then floatRoundPos q
  else -floatRoundPos (-q)

/-- The exact rational quotient of two rationals, built directly from
numerators and denominators so that evaluation stays in integer
arithmetic (equal in value to division in ℚ). -/
def qDiv (a b : ℚ) : ℚ :=
  Rat.divInt (a.num * (b.den : Int)) ((a.den : Int) * b.num)

/-- The exact rational difference of two rationals, built directly from
numerators and denominators so that evaluation stays in integer
arithmetic (equal in value to subtraction in ℚ). -/
def qSub (a b : ℚ) : ℚ :=
  Rat.divInt (a.num * (b.den : Int) - b.num * (a.den : Int)) ((a.den : Int) * (b.den : Int))

/-- IEEE binary64 division: the correctly rounded exact quotient. -/
def f64_div (a b : ℚ) : ℚ := floatRound (qDiv a b)

/-- IEEE binary64 subtraction: the correctly rounded exact difference. -/
def f64_sub (a b : ℚ) : ℚ := floatRound (qSub a b)

/-- Reducibility helper, src/lib.rs lines 44-46, under IEEE binary64
semantics: 1.0 - (optimized / baseline) with both operations correctly
rounded, as Rust computes it on f64 arguments. -/
def calculate_reducibility_f64 (baseline optimized : ℚ) : ℚ :=
  f64_sub 1 (f64_div optimized baseline)

/-- State threaded through the generation loop of src/lib.rs lines 57-158:
the emitted text, the signal pool (name, depth), and the expression cache
as an association list from signature to variable name. -/
structure GenState where
  code : String
  signals : List (String × Nat)
  expr_cache : List (String × String)
deriving Repr, DecidableEq

/-- Abstraction of the ChaCha20 draw stream: the value produced by the
t-th RNG call, by kind.  The generator consumes one index per call in the
source's call order. -/
structure Oracle where
  realAt : Nat → ℚ
  natAt : Nat → Nat → Nat
  boolAt : Nat → Bool

/-- HashMap::insert with last-writer-wins semantics: the key set grows by
at most the inserted key and the stored value for that key is replaced. -/
def cacheInsert (c : List (String × String)) (k v : String) : List (String × String) :=
  if c.any (fun p => p.1 = k) then
    c.map (fun p => if p.1 = k then (k, v) else p)
  else
    c ++ [(k, v)]

/-- The pipe separator used by the cache signatures. -/
def pipeChar : Char := Char.ofNat 124

/-- Rust str::split on one separator character, src/lib.rs line 87. -/
def splitPipe (s : String) : List String :=
  (s.data.splitOn pipeChar).map List.asString

/-- Decimal digits of n, most significant first: the digit characters
produced by Rust's Display formatting of an unsigned integer.  The fuel
argument, always at least n + 1, makes the recursion structural. -/
def natDigits (fuel n : Nat) (acc : List Char) : List Char :=
  match fuel with
  | 0 => acc
  | fuel + 1 =>
    let d := Char.ofNat (48 + n % 10)
    let n2 := n / 10
    if n2 = 0 then d :: acc else natDigits fuel n2 (d :: acc)

/-- Decimal rendering of a natural number, as Rust format! prints a usize. -/
def natRepr (n : Nat) : String :=
  List.asString (natDigits (n + 1) n [])

/-- Redundancy branch, src/lib.rs lines 82-109, after the choice of the
cached signature.  The cache is left unchanged and the new signal joins
the pool at depth 0. -/
def redundancyStep (st : GenState) (new_var chosen_sig : String) : GenState :=
  let parts := splitPipe chosen_sig
  if parts.headD "" = "POW5" then
    let base := parts.getD 1 ""
    let var_sq := new_var ++ "_sq"
    let var_quad := new_var ++ "_quad"
    let code := st.code
      ++ "    signal " ++ var_sq ++ ";\n"
      ++ "    " ++ var_sq ++ " <== " ++ base ++ " * " ++ base ++ ";\n"
      ++ "    signal " ++ var_quad ++ ";\n"
      ++ "    " ++ var_quad ++ " <== " ++ var_sq ++ " * " ++ var_sq ++ ";\n"
      ++ "    " ++ new_var ++ " <== " ++ var_quad ++ " * " ++ base ++ ";\n"
    { st with code := code, signals := st.signals ++ [(new_var, 0)] }
  else
    let code := st.code
      ++ "    " ++ new_var ++ " <== " ++ parts.getD 1 "" ++ " "
      ++ parts.headD "" ++ " " ++ parts.getD 2 "" ++ ";\n"
    { st with code := code, signals := st.signals ++ [(new_var, 0)] }

/-- Power-map branch, src/lib.rs lines 111-132, after the choice of the
base index: the unrolled x^2, x^4, x^5 chain, a POW5 cache entry, and the
result appended at depth d1 + 3. -/
def pow5Step (st : GenState) (new_var : String) (idx : Nat) : GenState :=
  let s1 := (st.signals.getD idx ("", 0)).1
  let d1 := (st.signals.getD idx ("", 0)).2
  let var_sq := new_var ++ "_sq"
  let var_quad := new_var ++ "_quad"
  let code := st.code
    ++ "    signal " ++ var_sq ++ ";\n"
    ++ "    " ++ var_sq ++ " <== " ++ s1 ++ " * " ++ s1 ++ ";\n"
    ++ "    signal " ++ var_quad ++ ";\n"
    ++ "    " ++ var_quad ++ " <== " ++ var_sq ++ " * " ++ var_sq ++ ";\n"
    ++ "    " ++ new_var ++ " <== " ++ var_quad ++ " * " ++ s1 ++ ";\n"
  let sig := "POW5|" ++ s1
  { st with code := code
            expr_cache := cacheInsert st.expr_cache sig new_var
            signals := st.signals ++ [(new_var, d1 + 3)] }

/-- Fresh-arithmetic branch, src/lib.rs lines 135-157, after the operator
and operand draws: when the computed depth exceeds max_depth the emitted
operands are forced to in[0] and in[1], but the signal joins the pool at
the computed (unclamped) new_depth. -/
def freshStep (config : CircuitConfig) (st : GenState) (new_var : String)
    (isMul : Bool) (idx1 idx2 : Nat) : GenState :=
  let op := if isMul then "*" else "+"
  let s1 := (st.signals.getD idx1 ("", 0)).1
  let d1 := (st.signals.getD idx1 ("", 0)).2
  let s2 := (st.signals.getD idx2 ("", 0)).1
  let d2 := (st.signals.getD idx2 ("", 0)).2
  let new_depth := max d1 d2 + 1
  let final_s1 := if new_depth > config.max_depth then "in[0]" else s1
  let final_s2 := if new_depth > config.max_depth then "in[1]" else s2
  let code := st.code
    ++ "    " ++ new_var ++ " <== " ++ final_s1 ++ " " ++ op ++ " " ++ final_s2 ++ ";\n"
  let sig := op ++ "|" ++ final_s1 ++ "|" ++ final_s2
  { st with code := code
            expr_cache := cacheInsert st.expr_cache sig new_var
            signals := st.signals ++ [(new_var, new_depth)] }

/-- One iteration of the generation loop, src/lib.rs lines 74-158, for step
index i with draw counter t.  `enum` gives the iteration order of the
expression cache's key set (Rust HashMap::keys, order unspecified). -/
def genStep (config : CircuitConfig) (o : Oracle)
    (enum : List (String × String) → List String)
    (i : Nat) (st : GenState) (t : Nat) : GenState × Nat :=
  let new_var := "s_" ++ natRepr i
  let st := { st with code := st.code ++ "    signal " ++ new_var ++ ";\n" }
  let rand_val := o.realAt t
  if rand_val < config.redundancy_ratio ∧ st.expr_cache ≠ [] then
    let keys := enum st.expr_cache
    let chosen_sig := keys.getD (o.natAt (t + 1) keys.length % keys.length) ""
    (redundancyStep st new_var chosen_sig, t + 2)
  else if rand_val < config.redundancy_ratio + config.power_map_ratio then
    let idx := o.natAt (t + 1) st.signals.length % st.signals.length
    (pow5Step st new_var idx, t + 2)
  else
    let isMul := o.boolAt (t + 1)
    let idx1 := o.natAt (t + 2) st.signals.length % st.signals.length
    let idx2 := o.natAt (t + 3) st.signals.length % st.signals.length
    (freshStep config st new_var isMul idx1 idx2, t + 4)

/-- Header and initial signal pool, src/lib.rs lines 57-67. -/
def initState : GenState :=
  { code := "pragma circom 2.0.0;\n\ntemplate Challenge() \x7b\n    signal input in[5];\n    signal output out;\n"
    signals := (List.range 5).map (fun i => ("in[" ++ natRepr i ++ "]", 0))
    expr_cache := [] }

/-- State after n iterations of the generation loop. -/
def genLoop (config : CircuitConfig) (o : Oracle)
    (enum : List (String × String) → List String) : Nat → GenState × Nat
  | 0 => (initState, 0)
  | n + 1 =>
    let p := genLoop config o enum n
    genStep config o enum n p.1 p.2

/-- The generator G(s, theta), src/lib.rs lines 49-166.  The seed-derived
draw stream is the oracle `o` and the cache-key iteration order is `enum`.
The footer computes num_constraints - 1 on a usize, which overflows
(a debug-build panic) when num_constraints = 0; that case is `none`. -/
def generate_circom_code (o : Oracle)
    (enum : List (String × String) → List String)
    (config : CircuitConfig) : Option String :=
  let st := (genLoop config o enum config.num_constraints).1
  if config.num_constraints = 0 then
    none
  else
    some (st.code ++ "    out <== s_" ++ natRepr (config.num_constraints - 1)
      ++ ";\n" ++ "\x7d\ncomponent main = Challenge();\n")

/-- ASCII whitespace accepted by the regex class backslash-s. -/
def isWs (c : Char) : Bool :=
  c = ' ' || c = '\t' || c = '\n' || c = '\x0d' || c = '\x0c' || c = '\x0b'

/-- Numeric value of a run of decimal digit characters. -/
def digitsToNat (l : List Char) : Nat :=
  l.foldl (fun a c => a * 10 + (c.toNat - 48)) 0

/-- Scan for the first match of the pattern used by run_calibrate,
src/main.rs line 110: the literal text, then whitespace, then at least
one digit; on a literal hit with no digit after it the scan resumes at
the next position, as the regex engine backtracks. -/
def scanForCount : List Char → Option Nat
  | [] => none
  | c :: rest =>
    if List.isPrefixOf "non-linear constraints:".data (c :: rest) then
      let after := (c :: rest).drop "non-linear constraints:".data.length
      let ws := after.dropWhile isWs
      let ds := ws.takeWhile Char.isDigit
      if ds = [] then scanForCount rest else some (digitsToNat ds)
    else
      scanForCount rest

/-- The optimized-size value used by run_calibrate, src/main.rs lines
111-115: the captured integer when the pattern matches, and otherwise the
fallback baseline * 0.9. -/
def optimized_size (stdout : String) (baseline : ℚ) : ℚ :=
  match scanForCount stdout.data with
  | some n => (n : ℚ)
  | none => baseline * 0.9


set_option maxRecDepth 100000

/-- Names free of the signature separator. -/
def goodName (s : String) : Prop := pipeChar ∉ s.data

/-- The two signature shapes ever inserted into the expression cache,
src/lib.rs lines 129 and 153. -/
def goodKey (k : String) : Prop :=
  (∃ nm, goodName nm ∧ k = "POW5|" ++ nm) ∨
  (∃ op a b, (op = "*" ∨ op = "+") ∧ goodName a ∧ goodName b ∧
    k = op ++ "|" ++ a ++ "|" ++ b)

/-- Invariant of the generation loop: pool names are separator-free and
cache keys have one of the two emitted shapes. -/
def goodState (st : GenState) : Prop :=
  (∀ p ∈ st.signals, goodName p.1) ∧ (∀ q ∈ st.expr_cache, goodKey q.1)

/-- Cache-key enumeration in insertion order: one possible iteration
order of the Rust HashMap. -/
def enumKeys (c : List (String × String)) : List String := c.map Prod.fst

/-- Cache-key enumeration in reversed insertion order: another possible
iteration order of the Rust HashMap. -/
def enumKeysRev (c : List (String × String)) : List String := (c.map Prod.fst).reverse

/-- Draw table: two fresh-arithmetic steps building two distinct cache
entries, then a redundancy draw choosing among them. -/
def oracleA : Oracle :=
  { realAt := fun t => if t = 8 then 1/10 else 9/10
    natAt := fun t _ => if t = 3 then 1 else if t = 7 then 2 else 0
    boolAt := fun t => t = 1 }

/-- Three steps, redundancy probability 1/2, no power-map steps. -/
def cfgA : CircuitConfig :=
  { num_constraints := 3, redundancy_ratio := 1/2, max_depth := 10, power_map_ratio := 0 }

/-- Draw table: one fresh-arithmetic step, then one power-map step based
on the fresh signal. -/
def oracleB : Oracle :=
  { realAt := fun t => if t = 4 then 1/4 else 9/10
    natAt := fun t _ => if t = 3 then 1 else if t = 5 then 5 else 0
    boolAt := fun _ => true }

/-- Two steps with maximum depth 1 and power-map probability 1/2. -/
def cfgB : CircuitConfig :=
  { num_constraints := 2, redundancy_ratio := 0, max_depth := 1, power_map_ratio := 1/2 }

/-- The all-zero draw table. -/
def oracleZero : Oracle :=
  { realAt := fun _ => 0, natAt := fun _ _ => 0, boolAt := fun _ => false }

/-- Draw table landing every step in the power-map branch at index 0. -/
def oracleP : Oracle :=
  { realAt := fun _ => 1/4, natAt := fun _ _ => 5, boolAt := fun _ => false }

/-- One step, power-map probability 1/2, no redundancy. -/
def cfgP : CircuitConfig :=
  { num_constraints := 1, redundancy_ratio := 0, max_depth := 10, power_map_ratio := 1/2 }

/-- One step, maximum depth 0: the very first fresh-arithmetic step
already exceeds the bound. -/
def cfgF : CircuitConfig :=
  { num_constraints := 1, redundancy_ratio := 0, max_depth := 0, power_map_ratio := 0 }

/-- A mid-run state whose cache holds one binary-operator signature. -/
def stR : GenState :=
  { code := "", signals := [("in[0]", 0)], expr_cache := [("*|in[0]|in[1]", "s_0")] }

/-- A mid-run state whose cache holds one POW5 signature. -/
def stP : GenState :=
  { code := "", signals := [("in[0]", 0)], expr_cache := [("POW5|in[0]", "s_1")] }

theorem digit_char_ne_pipe (m : Nat) (h : m < 10) : Char.ofNat (48 + m) ≠ pipeChar := by
  interval_cases m <;> decide

theorem natDigits_no_pipe (fuel : Nat) :
    ∀ n acc, pipeChar ∉ acc → pipeChar ∉ natDigits fuel n acc := by
  induction fuel with
  | zero => intro n acc hacc; simpa [natDigits] using hacc
  | succ fuel ih =>
    intro n acc hacc
    simp only [natDigits]
    have hd : Char.ofNat (48 + n % 10) ≠ pipeChar :=
      digit_char_ne_pipe (n % 10) (Nat.mod_lt n (by norm_num))
    split
    · intro hmem
      rcases List.mem_cons.mp hmem with h | h
      · exact hd h.symm
      · exact hacc h
    · refine ih (n / 10) _ ?_
      intro hmem
      rcases List.mem_cons.mp hmem with h | h
      · exact hd h.symm
      · exact hacc h

theorem natRepr_no_pipe (n : Nat) : pipeChar ∉ (natRepr n).data := by
  unfold natRepr
  exact natDigits_no_pipe (n + 1) n [] (by simp)

theorem sigName_good (i : Nat) : goodName ("s_" ++ natRepr i) := by
  unfold goodName
  rw [String.data_append]
  intro hmem
  rcases List.mem_append.mp hmem with h | h
  · revert h; decide
  · exact natRepr_no_pipe i h

instance (s : String) : Decidable (goodName s) := by
  unfold goodName
  infer_instance

theorem mem_ne_of_goodName (s : String) (h : goodName s) :
    ∀ x ∈ s.data, (x == pipeChar) ≠ true := by
  intro x hx hbe
  exact h (beq_iff_eq.mp hbe ▸ hx)

theorem splitPipe_pow5_key (nm : String) (h : goodName nm) :
    splitPipe ("POW5|" ++ nm) = ["POW5", nm] := by
  unfold splitPipe
  have hd : ("POW5|" ++ nm).data = "POW5".data ++ pipeChar :: nm.data := rfl
  rw [hd, List.splitOn]
  rw [List.splitOnP_first _ _ (mem_ne_of_goodName "POW5" (by decide)) pipeChar (by decide)]
  rw [List.splitOnP_eq_single _ _ (mem_ne_of_goodName nm h)]
  rfl

theorem splitPipe_binop_key (op a b : String) (hop : goodName op)
    (ha : goodName a) (hb : goodName b) :
    splitPipe (op ++ "|" ++ a ++ "|" ++ b) = [op, a, b] := by
  unfold splitPipe
  have hd : (op ++ "|" ++ a ++ "|" ++ b).data
      = op.data ++ pipeChar :: (a.data ++ pipeChar :: b.data) := by
    simp only [String.data_append]
    have hp : ('|' : Char) = pipeChar := rfl
    rw [hp]
    simp [List.append_assoc]
  rw [hd, List.splitOn]
  rw [List.splitOnP_first _ _ (mem_ne_of_goodName op hop) pipeChar (by decide)]
  rw [List.splitOnP_first _ _ (mem_ne_of_goodName a ha) pipeChar (by decide)]
  rw [List.splitOnP_eq_single _ _ (mem_ne_of_goodName b hb)]
  rfl

theorem getD_fst_good (l : List (String × Nat)) (h : ∀ p ∈ l, goodName p.1) (idx : Nat) :
    goodName (l.getD idx ("", 0)).1 := by
  rw [List.getD_eq_getElem?_getD]
  by_cases hl : idx < l.length
  · rw [List.getElem?_eq_getElem hl]
    exact h _ (List.getElem_mem hl)
  · rw [List.getElem?_eq_none (by omega)]
    decide

theorem cacheInsert_good (c : List (String × String)) (k v : String)
    (hc : ∀ q ∈ c, goodKey q.1) (hk : goodKey k) :
    ∀ q ∈ cacheInsert c k v, goodKey q.1 := by
  intro q hq
  unfold cacheInsert at hq
  split at hq
  · rcases List.mem_map.mp hq with ⟨p, hp, hpe⟩
    by_cases hpk : p.1 = k
    · rw [← hpe, if_pos hpk]
      exact hk
    · rw [← hpe, if_neg hpk]
      exact hc p hp
  · rcases List.mem_append.mp hq with h | h
    · exact hc q h
    · have : q = (k, v) := List.mem_singleton.mp h
      rw [this]
      exact hk

theorem append_single_good (l : List (String × Nat)) (v : String) (d : Nat)
    (h : ∀ p ∈ l, goodName p.1) (hv : goodName v) :
    ∀ p ∈ l ++ [(v, d)], goodName p.1 := by
  intro p hp
  rcases List.mem_append.mp hp with h1 | h1
  · exact h p h1
  · have : p = (v, d) := List.mem_singleton.mp h1
    rw [this]
    exact hv

theorem redundancyStep_good (st : GenState) (v sig : String)
    (hv : goodName v) (h : goodState st) : goodState (redundancyStep st v sig) := by
  simp only [redundancyStep]
  split
  · exact ⟨append_single_good st.signals v 0 h.1 hv, h.2⟩
  · exact ⟨append_single_good st.signals v 0 h.1 hv, h.2⟩

theorem pow5Step_good (st : GenState) (v : String) (idx : Nat)
    (hv : goodName v) (h : goodState st) : goodState (pow5Step st v idx) := by
  have hs1 : goodName (st.signals.getD idx ("", 0)).1 := getD_fst_good st.signals h.1 idx
  refine ⟨append_single_good st.signals v _ h.1 hv, ?_⟩
  exact cacheInsert_good st.expr_cache _ v h.2 (Or.inl ⟨_, hs1, rfl⟩)

theorem freshStep_good (config : CircuitConfig) (st : GenState) (v : String)
    (isMul : Bool) (idx1 idx2 : Nat) (hv : goodName v) (h : goodState st) :
    goodState (freshStep config st v isMul idx1 idx2) := by
  have hs1 : goodName (st.signals.getD idx1 ("", 0)).1 := getD_fst_good st.signals h.1 idx1
  have hs2 : goodName (st.signals.getD idx2 ("", 0)).1 := getD_fst_good st.signals h.1 idx2
  simp only [freshStep]
  refine ⟨append_single_good st.signals v _ h.1 hv, ?_⟩
  refine cacheInsert_good st.expr_cache _ v h.2 (Or.inr ⟨_, _, _, ?_, ?_, ?_, rfl⟩)
  · cases isMul
    · right; rfl
    · left; rfl
  · split
    · decide
    · exact hs1
  · split
    · decide
    · exact hs2

theorem genStep_good (config : CircuitConfig) (o : Oracle)
    (enum : List (String × String) → List String) (i t : Nat) (st : GenState)
    (h : goodState st) : goodState (genStep config o enum i st t).1 := by
  have hst : goodState { st with code := st.code ++ "    signal " ++ ("s_" ++ natRepr i) ++ ";\n" } :=
    ⟨h.1, h.2⟩
  simp only [genStep]
  split
  · exact redundancyStep_good _ _ _ (sigName_good i) hst
  · split
    · exact pow5Step_good _ _ _ (sigName_good i) hst
    · exact freshStep_good _ _ _ _ _ _ (sigName_good i) hst

theorem genLoop_good (config : CircuitConfig) (o : Oracle)
    (enum : List (String × String) → List String) (n : Nat) :
    goodState (genLoop config o enum n).1 := by
  induction n with
  | zero =>
    show goodState initState
    exact ⟨by decide, by simp [initState]⟩
  | succ n ih =>
    exact genStep_good config o enum n (genLoop config o enum n).2 _ ih

/-- C4: for every non-negative difficulty delta, difficulty_to_config is
total and deterministic (it is a pure function) and returns exactly
num_constraints = delta * 1000, redundancy_ratio = max(0.05, 0.5 - delta * 0.05),
power_map_ratio = min(0.30, 0.05 + delta * 0.05) and max_depth = 10 + delta * 10. -/
theorem difficulty_to_config_formulas (delta : Nat) :
    (difficulty_to_config delta).num_constraints = delta * 1000 ∧
    (difficulty_to_config delta).redundancy_ratio = max 0.05 ((0.5 : ℚ) - (delta : ℚ) * 0.05) ∧
    (difficulty_to_config delta).power_map_ratio = min 0.30 ((0.05 : ℚ) + (delta : ℚ) * 0.05) ∧
    (difficulty_to_config delta).max_depth = 10 + delta * 10 := by
  refine ⟨rfl, ?_, ?_, rfl⟩
  · exact max_comm _ _
  · exact min_comm _ _

/-- C8: difficulty scaling is strictly increasing in target constraints and
maximum depth, non-increasing in redundancy ratio, non-decreasing in power
map ratio, and the two ratios stay within the floors and caps 0.05..0.5 and
0.05..0.30. -/
theorem difficulty_to_config_monotone (d1 d2 : Nat) (h : d1 < d2) :
    (difficulty_to_config d1).num_constraints < (difficulty_to_config d2).num_constraints ∧
    (difficulty_to_config d1).max_depth < (difficulty_to_config d2).max_depth ∧
    (difficulty_to_config d2).redundancy_ratio ≤ (difficulty_to_config d1).redundancy_ratio ∧
    (difficulty_to_config d1).power_map_ratio ≤ (difficulty_to_config d2).power_map_ratio ∧
    (0.05 : ℚ) ≤ (difficulty_to_config d1).redundancy_ratio ∧
    (difficulty_to_config d1).redundancy_ratio ≤ 0.5 ∧
    (0.05 : ℚ) ≤ (difficulty_to_config d1).power_map_ratio ∧
    (difficulty_to_config d1).power_map_ratio ≤ 0.30 := by
  have hq : (d1 : ℚ) ≤ (d2 : ℚ) := by exact_mod_cast h.le
  have hm : (d1 : ℚ) * 0.05 ≤ (d2 : ℚ) * 0.05 := by
    apply mul_le_mul_of_nonneg_right hq
    norm_num
  have hp1 : (0 : ℚ) ≤ (d1 : ℚ) * 0.05 := by positivity
  refine ⟨?_, ?_, ?_, ?_, ?_, ?_, ?_, ?_⟩
  · show d1 * 1000 < d2 * 1000
    omega
  · show 10 + d1 * 10 < 10 + d2 * 10
    omega
  · show max ((0.5 : ℚ) - (d2 : ℚ) * 0.05) 0.05 ≤ max ((0.5 : ℚ) - (d1 : ℚ) * 0.05) 0.05
    exact max_le_max (by linarith) le_rfl
  · show min ((0.05 : ℚ) + (d1 : ℚ) * 0.05) 0.30 ≤ min ((0.05 : ℚ) + (d2 : ℚ) * 0.05) 0.30
    exact min_le_min (by linarith) le_rfl
  · show (0.05 : ℚ) ≤ max ((0.5 : ℚ) - (d1 : ℚ) * 0.05) 0.05
    exact le_max_right _ _
  · show max ((0.5 : ℚ) - (d1 : ℚ) * 0.05) 0.05 ≤ 0.5
    apply max_le
    · linarith
    · norm_num
  · show (0.05 : ℚ) ≤ min ((0.05 : ℚ) + (d1 : ℚ) * 0.05) 0.30
    apply le_min
    · linarith
    · norm_num
  · show min ((0.05 : ℚ) + (d1 : ℚ) * 0.05) 0.30 ≤ 0.30
    exact min_le_right _ _

/-- Witness for C8 at the concrete pair of difficulties 1 < 2. -/
theorem difficulty_to_config_monotone_witness :
    1 < 2 ∧
    ((difficulty_to_config 1).num_constraints < (difficulty_to_config 2).num_constraints ∧
    (difficulty_to_config 1).max_depth < (difficulty_to_config 2).max_depth ∧
    (difficulty_to_config 2).redundancy_ratio ≤ (difficulty_to_config 1).redundancy_ratio ∧
    (difficulty_to_config 1).power_map_ratio ≤ (difficulty_to_config 2).power_map_ratio ∧
    (0.05 : ℚ) ≤ (difficulty_to_config 1).redundancy_ratio ∧
    (difficulty_to_config 1).redundancy_ratio ≤ 0.5 ∧
    (0.05 : ℚ) ≤ (difficulty_to_config 1).power_map_ratio ∧
    (difficulty_to_config 1).power_map_ratio ≤ 0.30) :=
  ⟨by norm_num, difficulty_to_config_monotone 1 2 (by norm_num)⟩

/-- Counterexample to C9: on the binary64 arithmetic the source actually
performs, reducibility(100, 80) is not 0.2: 1.0 - 80.0/100.0 equals
neither the real number 1/5 nor the binary64 value of the literal 0.2
(so the repository's own assert_eq at src/lib.rs line 213 fails on it). -/
theorem reducibility_sample_counterexample :
    calculate_reducibility_f64 100 80 ≠ (0.2 : ℚ) ∧
    calculate_reducibility_f64 100 80 ≠ floatRound (0.2 : ℚ) := by
  have h02 : (0.2 : ℚ) = mkRat 1 5 := by
    rw [Rat.mkRat_eq_divInt, Rat.divInt_eq_div]
    norm_num
  rw [h02]
  exact ⟨by decide, by decide⟩

/-- C9 amended: under the IEEE binary64 semantics of the source,
calculate_reducibility returns exactly the correctly rounded evaluation
of 1 - (optimized / baseline), unclamped; reducibility(100, 100) is
exactly 0; reducibility(100, 80) is the double 900719925474099 / 2 ^ 52
= 0.19999999999999996, within 10 ^ -9 of 0.2 but strictly below it;
reducibility(100, 120) is negative, not clamped, and within 10 ^ -9 of
-0.2. -/
theorem reducibility_float_spec :
    (∀ baseline optimized : ℚ,
      calculate_reducibility_f64 baseline optimized = f64_sub 1 (f64_div optimized baseline)) ∧
    calculate_reducibility_f64 100 100 = 0 ∧
    calculate_reducibility_f64 100 80 = mkRat 900719925474099 4503599627370496 ∧
    mkRat 199999999 1000000000 < calculate_reducibility_f64 100 80 ∧
    calculate_reducibility_f64 100 80 < (0.2 : ℚ) ∧
    calculate_reducibility_f64 100 120 = mkRat (-900719925474099) 4503599627370496 ∧
    calculate_reducibility_f64 100 120 < 0 ∧
    -(0.2 : ℚ) < calculate_reducibility_f64 100 120 ∧
    calculate_reducibility_f64 100 120 < mkRat (-199999999) 1000000000 := by
  have h02 : (0.2 : ℚ) = mkRat 1 5 := by
    rw [Rat.mkRat_eq_divInt, Rat.divInt_eq_div]
    norm_num
  rw [h02]
  refine ⟨fun b o => rfl, ?_, ?_, ?_, ?_, ?_, ?_, ?_, ?_⟩ <;> decide

/-- C1: the generator's output depends on the iteration order of the
expression cache's key set.  With the draw table oracleA and the
three-step configuration cfgA, enumerating the keys in insertion order
and in reversed order produces different program texts, so the output is
not a function of the seed-derived stream and configuration alone, which
is what Rust HashMap key iteration (randomised per map instance) amounts
to across calls, processes and machines. -/
theorem generate_key_order_dependent :
    generate_circom_code oracleA enumKeys cfgA ≠ generate_circom_code oracleA enumKeysRev cfgA := by
  with_unfolding_all decide

/-- C3: difficulty_to_config 0 yields num_constraints = 0 and no earlier
rejection exists, and on that configuration the footer's reference to the
last generated signal underflows: generate_circom_code reaches the usize
subtraction num_constraints - 1 at 0 (none in this embedding, a panic in
a Rust debug build, a wrapped index of 2^64 - 1 in a release build). -/
theorem generate_zero_target_underflow :
    (difficulty_to_config 0).num_constraints = 0 ∧
    generate_circom_code oracleZero enumKeys (difficulty_to_config 0) = none :=
  ⟨rfl, rfl⟩

/-- C5: when the compiler report does not contain the pattern, run_calibrate
does not surface a parse failure; it substitutes the arbitrary discount
baseline * 0.9 for the optimized count, so an empty report with baseline
1000 yields an optimized size of 900 and a fabricated reducibility of 1/10. -/
theorem calibrate_parse_fallback_discount :
    scanForCount "".data = none ∧
    optimized_size "" 1000 = 900 ∧
    calculate_reducibility 1000 (optimized_size "" 1000) = 1 / 10 := by
  refine ⟨rfl, ?_, ?_⟩ <;> with_unfolding_all decide

/-- Counterexample to C2: with maximum depth 1, a fresh multiplication at
depth 1 followed by a power-map step on it records a pool entry of depth 4,
exceeding max_depth without any reset to primary inputs: the emitted
constraint chain for s_1 is based on s_0, not on in[0] and in[1]. -/
theorem depth_bound_counterexample :
    ("s_1", 4) ∈ (genLoop cfgB oracleB enumKeys 2).1.signals ∧
    cfgB.max_depth = 1 ∧
    (genLoop cfgB oracleB enumKeys 2).1.code
      = "pragma circom 2.0.0;\n\ntemplate Challenge() \x7b\n    signal input in[5];\n    signal output out;\n    signal s_0;\n    s_0 <== in[0] * in[1];\n    signal s_1;\n    signal s_1_sq;\n    s_1_sq <== s_0 * s_0;\n    signal s_1_quad;\n    s_1_quad <== s_1_sq * s_1_sq;\n    s_1 <== s_1_quad * s_0;\n" := by
  refine ⟨?_, rfl, ?_⟩ <;> with_unfolding_all decide

/-- C2 amended: in the fresh-arithmetic branch, when the computed depth
max(depth(op1), depth(op2)) + 1 exceeds max_depth, the emitted operands
are replaced by the first two primary inputs in[0] and in[1] and the cache
entry is keyed on them, but the new signal is appended to the pool at the
unclamped new_depth, which exceeds max_depth. -/
theorem fresh_branch_clamp (config : CircuitConfig) (o : Oracle)
    (enum : List (String × String) → List String) (i t : Nat) (st : GenState)
    (h1 : ¬ (o.realAt t < config.redundancy_ratio ∧ st.expr_cache ≠ []))
    (h2 : ¬ o.realAt t < config.redundancy_ratio + config.power_map_ratio)
    (h3 : max (st.signals.getD (o.natAt (t + 2) st.signals.length % st.signals.length) ("", 0)).2
          (st.signals.getD (o.natAt (t + 3) st.signals.length % st.signals.length) ("", 0)).2 + 1
        > config.max_depth) :
    (genStep config o enum i st t).1.code
      = st.code ++ "    signal " ++ ("s_" ++ natRepr i) ++ ";\n"
        ++ "    " ++ ("s_" ++ natRepr i) ++ " <== " ++ "in[0]" ++ " "
        ++ (if o.boolAt (t + 1) then "*" else "+") ++ " " ++ "in[1]" ++ ";\n" ∧
    (genStep config o enum i st t).1.signals
      = st.signals ++ [("s_" ++ natRepr i,
          max (st.signals.getD (o.natAt (t + 2) st.signals.length % st.signals.length) ("", 0)).2
            (st.signals.getD (o.natAt (t + 3) st.signals.length % st.signals.length) ("", 0)).2 + 1)] ∧
    (genStep config o enum i st t).1.expr_cache
      = cacheInsert st.expr_cache
          ((if o.boolAt (t + 1) then "*" else "+") ++ "|" ++ "in[0]" ++ "|" ++ "in[1]")
          ("s_" ++ natRepr i) ∧
    (genStep config o enum i st t).2 = t + 4 := by
  simp only [genStep, freshStep]
  rw [if_neg h1, if_neg h2, if_pos h3, if_pos h3]
  exact ⟨rfl, rfl, rfl, rfl⟩

/-- Witness for C2 amended: with maximum depth 0 the very first step is
clamped, emits in[0] + in[1], and is recorded at the unclamped depth 1. -/
theorem fresh_branch_clamp_witness :
    (genStep cfgF oracleZero enumKeys 0 initState 0).1.code
      = "pragma circom 2.0.0;\n\ntemplate Challenge() \x7b\n    signal input in[5];\n    signal output out;\n    signal s_0;\n    s_0 <== in[0] + in[1];\n" ∧
    (genStep cfgF oracleZero enumKeys 0 initState 0).1.signals
      = initState.signals ++ [("s_0", 1)] := by
  have h := fresh_branch_clamp cfgF oracleZero enumKeys 0 0 initState
    (by with_unfolding_all decide) (by with_unfolding_all decide) (by with_unfolding_all decide)
  constructor
  · rw [h.1]
    with_unfolding_all decide
  · rw [h.2.1]
    with_unfolding_all decide

/-- C6: in the power-map branch (draw at or above redundancy_ratio but
below redundancy_ratio + power_map_ratio), one existing pool entry is
selected by the bounded draw as base x, the three chained constraints for
x^2, x^4 and x^5 are emitted as declared signals with the step's signal
last, a cache entry keyed POW5 with the base maps to the step's signal,
and the result joins the pool at depth(x) + 3. -/
theorem pow5_branch_spec (config : CircuitConfig) (o : Oracle)
    (enum : List (String × String) → List String) (i t : Nat) (st : GenState)
    (h1 : ¬ (o.realAt t < config.redundancy_ratio ∧ st.expr_cache ≠ []))
    (h2 : o.realAt t < config.redundancy_ratio + config.power_map_ratio)
    (h3 : st.signals ≠ []) :
    st.signals.getD (o.natAt (t + 1) st.signals.length % st.signals.length) ("", 0) ∈ st.signals ∧
    genStep config o enum i st t =
      (let v := "s_" ++ natRepr i
       let s1 := (st.signals.getD (o.natAt (t + 1) st.signals.length % st.signals.length) ("", 0)).1
       let d1 := (st.signals.getD (o.natAt (t + 1) st.signals.length % st.signals.length) ("", 0)).2
       ({ code := st.code ++ "    signal " ++ v ++ ";\n"
            ++ "    signal " ++ (v ++ "_sq") ++ ";\n"
            ++ "    " ++ (v ++ "_sq") ++ " <== " ++ s1 ++ " * " ++ s1 ++ ";\n"
            ++ "    signal " ++ (v ++ "_quad") ++ ";\n"
            ++ "    " ++ (v ++ "_quad") ++ " <== " ++ (v ++ "_sq") ++ " * " ++ (v ++ "_sq") ++ ";\n"
            ++ "    " ++ v ++ " <== " ++ (v ++ "_quad") ++ " * " ++ s1 ++ ";\n"
          signals := st.signals ++ [(v, d1 + 3)]
          expr_cache := cacheInsert st.expr_cache ("POW5|" ++ s1) v }, t + 2)) := by
  constructor
  · have hlen : 0 < st.signals.length := List.length_pos.mpr h3
    have hlt : o.natAt (t + 1) st.signals.length % st.signals.length < st.signals.length :=
      Nat.mod_lt _ hlen
    rw [List.getD_eq_getElem?_getD, List.getElem?_eq_getElem hlt]
    exact List.getElem_mem hlt
  · simp only [genStep, pow5Step]
    rw [if_neg h1, if_pos h2]

/-- Witness for C6: one power-map step from the initial pool picks in[0]
and records POW5 of in[0] at depth 3. -/
theorem pow5_branch_spec_witness :
    (genStep cfgP oracleP enumKeys 0 initState 0).1.expr_cache = [("POW5|in[0]", "s_0")] ∧
    (genStep cfgP oracleP enumKeys 0 initState 0).1.signals = initState.signals ++ [("s_0", 3)] := by
  have h := pow5_branch_spec cfgP oracleP enumKeys 0 0 initState
    (by with_unfolding_all decide) (by with_unfolding_all decide) (by with_unfolding_all decide)
  constructor
  · rw [h.2]
    with_unfolding_all decide
  · rw [h.2]
    with_unfolding_all decide

/-- C7: in the redundancy branch (draw below redundancy_ratio and cache
non-empty), one cached signature is selected by the bounded draw over the
enumerated key set; a POW5 signature re-emits the full unrolled chain
against the cached base operand, any other signature re-emits the single
binary-operator line from the cached operator and operands; in both cases
the cache is unchanged and the new signal joins the pool at depth 0. -/
theorem redundancy_branch_spec (config : CircuitConfig) (o : Oracle)
    (enum : List (String × String) → List String) (i t : Nat) (st : GenState)
    (h1 : o.realAt t < config.redundancy_ratio)
    (h2 : st.expr_cache ≠ []) :
    genStep config o enum i st t =
      (let v := "s_" ++ natRepr i
       let keys := enum st.expr_cache
       let parts := splitPipe (keys.getD (o.natAt (t + 1) keys.length % keys.length) "")
       (if parts.headD "" = "POW5" then
          { code := st.code ++ "    signal " ++ v ++ ";\n"
              ++ "    signal " ++ (v ++ "_sq") ++ ";\n"
              ++ "    " ++ (v ++ "_sq") ++ " <== " ++ parts.getD 1 "" ++ " * " ++ parts.getD 1 "" ++ ";\n"
              ++ "    signal " ++ (v ++ "_quad") ++ ";\n"
              ++ "    " ++ (v ++ "_quad") ++ " <== " ++ (v ++ "_sq") ++ " * " ++ (v ++ "_sq") ++ ";\n"
              ++ "    " ++ v ++ " <== " ++ (v ++ "_quad") ++ " * " ++ parts.getD 1 "" ++ ";\n"
            signals := st.signals ++ [(v, 0)]
            expr_cache := st.expr_cache }
        else
          { code := st.code ++ "    signal " ++ v ++ ";\n"
              ++ "    " ++ v ++ " <== " ++ parts.getD 1 "" ++ " " ++ parts.headD "" ++ " " ++ parts.getD 2 "" ++ ";\n"
            signals := st.signals ++ [(v, 0)]
            expr_cache := st.expr_cache }, t + 2)) := by
  simp only [genStep, redundancyStep]
  rw [if_pos ⟨h1, h2⟩]

/-- Witness for C7, one application per signature kind: a cached binary
signature is re-emitted as a single line and a cached POW5 signature is
re-emitted as the full chain, both appended to the pool at depth 0. -/
theorem redundancy_branch_spec_witness :
    (genStep cfgA oracleZero enumKeys 2 stR 0).1.code
      = "    signal s_2;\n    s_2 <== in[0] * in[1];\n" ∧
    (genStep cfgA oracleZero enumKeys 2 stR 0).1.signals = stR.signals ++ [("s_2", 0)] ∧
    (genStep cfgA oracleZero enumKeys 3 stP 0).1.code
      = "    signal s_3;\n    signal s_3_sq;\n    s_3_sq <== in[0] * in[0];\n    signal s_3_quad;\n    s_3_quad <== s_3_sq * s_3_sq;\n    s_3 <== s_3_quad * in[0];\n" ∧
    (genStep cfgA oracleZero enumKeys 3 stP 0).1.signals = stP.signals ++ [("s_3", 0)] := by
  have hA := redundancy_branch_spec cfgA oracleZero enumKeys 2 0 stR
    (by with_unfolding_all decide) (by with_unfolding_all decide)
  have hB := redundancy_branch_spec cfgA oracleZero enumKeys 3 0 stP
    (by with_unfolding_all decide) (by with_unfolding_all decide)
  refine ⟨?_, ?_, ?_, ?_⟩
  · rw [hA]
    with_unfolding_all decide
  · rw [hA]
    with_unfolding_all decide
  · rw [hB]
    with_unfolding_all decide
  · rw [hB]
    with_unfolding_all decide

/-- C10: in every state reachable by the generation loop, no pool name
contains the separator character, and splitting any cache key on the
separator yields either exactly the two parts of a POW5 signature, whose
head is POW5, or exactly three parts whose head is not POW5: the accesses
to parts 0, 1 and, for non-POW5 signatures, part 2 are always in bounds. -/
theorem cache_key_shape (config : CircuitConfig) (o : Oracle)
    (enum : List (String × String) → List String) (n : Nat) :
    (∀ p ∈ (genLoop config o enum n).1.signals, pipeChar ∉ p.1.data) ∧
    (∀ q ∈ (genLoop config o enum n).1.expr_cache,
      (∃ nm, splitPipe q.1 = ["POW5", nm]) ∨
      ((splitPipe q.1).length = 3 ∧ (splitPipe q.1).headD "" ≠ "POW5")) := by
  have hg := genLoop_good config o enum n
  refine ⟨hg.1, ?_⟩
  intro q hq
  rcases hg.2 q hq with ⟨nm, hnm, hk⟩ | ⟨op, a, b, hop, ha, hb, hk⟩
  · left
    exact ⟨nm, by rw [hk, splitPipe_pow5_key nm hnm]⟩
  · right
    have hopg : goodName op := by
      rcases hop with rfl | rfl <;> decide
    rw [hk, splitPipe_binop_key op a b hopg ha hb]
    refine ⟨rfl, ?_⟩
    rcases hop with rfl | rfl <;> simp

/-- Witness for C10: the key cached by the first fresh-arithmetic step of
the cfgA run splits into three in-bounds parts with a non-POW5 head. -/
theorem cache_key_shape_witness :
    (∃ nm, splitPipe ("*|in[0]|in[1]", "s_0").1 = ["POW5", nm]) ∨
    ((splitPipe ("*|in[0]|in[1]", "s_0").1).length = 3 ∧
      (splitPipe ("*|in[0]|in[1]", "s_0").1).headD "" ≠ "POW5") :=
  (cache_key_shape cfgA oracleA enumKeys 1).2 ("*|in[0]|in[1]", "s_0")
    (by with_unfolding_all decide)
